import Mathlib

/-!
Verification development for the budget-tracker statement parsing and
reconciliation engine (`budget_tracker/parsers/parser.py`).

The Python source is shallowly embedded: each Python function is translated
into an executable Lean definition of the same name.  Python floats carrying
money amounts are modelled as exact rationals (`ℚ`); Python `ValueError`
propagation (from `float(...)`) is modelled by `Option`, where `none` means
the exception escapes the enclosing function.  Python `re` patterns are
embedded as values of a small regex syntax `RE` together with a backtracking
matcher `matchRE` that follows the preference order of Python's engine
(greedy quantifiers try longer first, lazy ones shorter first, optional
groups are tried before being skipped, `search` scans start positions left
to right).  Character classes are modelled over the ASCII/Latin-1 fragment
that the statements and the embedded patterns use: `\d` is `'0'..'9'`,
`\s` is the Unicode white-space list, `À-ÿ` is the code-point range
`0xC0-0xFF` exactly as in the pattern.
-/

set_option maxRecDepth 40000

namespace BudgetTracker

/-- White-space characters: the Unicode white-space set recognised by
Python's `str.strip` and the `\s` class for `str` patterns. -/
def isSpacePy (c : Char) : Bool :=
  c ∈ ([' ', '\t', '\n', '\x0b', '\x0c', '\r',
        '\x1c', '\x1d', '\x1e', '\x1f', '\x85', '\xa0',
        '\u1680', '\u2000', '\u2001', '\u2002', '\u2003', '\u2004',
        '\u2005', '\u2006', '\u2007', '\u2008', '\u2009', '\u200a',
        '\u2028', '\u2029', '\u202f', '\u205f', '\u3000'] : List Char)

/-- Decimal digit class, the `\d` of the embedded patterns (ASCII fragment). -/
def reDig (c : Char) : Bool := 48 ≤ c.toNat && c.toNat ≤ 57

/-- Upper-case ASCII letter, the `[A-Z]` class. -/
def reUpper (c : Char) : Bool := 65 ≤ c.toNat && c.toNat ≤ 90

/-- The `[\d.,]` class used for monetary values. -/
def reValChar (c : Char) : Bool := reDig c || c == '.' || c == ','

/-- The `[A-Za-zÀ-ÿ]` class of the category-header pattern; `À-ÿ` is the
code-point range `0xC0`-`0xFF`, exactly as written in the source pattern. -/
def isLetterBR (c : Char) : Bool :=
  (65 ≤ c.toNat && c.toNat ≤ 90) || (97 ≤ c.toNat && c.toNat ≤ 122) ||
  (0xC0 ≤ c.toNat && c.toNat ≤ 0xFF)

/-- Upper-casing of one character as done by Python `str.upper` on the
ASCII/Latin-1 fragment ('ß' expands to "SS", 'µ' maps to 'Μ', 'ÿ' to 'Ÿ'). -/
def upperChar (c : Char) : List Char :=
  if 97 ≤ c.toNat && c.toNat ≤ 122 then [Char.ofNat (c.toNat - 32)]
  else if c = 'ß' then ['S', 'S']
  else if c = 'µ' then ['Μ']
  else if c = 'ÿ' then ['Ÿ']
  else if 0xE0 ≤ c.toNat && c.toNat ≤ 0xFE && c.toNat ≠ 0xF7 then
    [Char.ofNat (c.toNat - 32)]
  else [c]

/-- Python `str.upper` on a line (Latin-1 fragment). -/
def pyUpper (l : List Char) : List Char := (l.map upperChar).flatten

/-- Python `str.strip`. -/
def pyStrip (l : List Char) : List Char :=
  ((l.dropWhile isSpacePy).reverse.dropWhile isSpacePy).reverse

/-- Python `str.rstrip`. -/
def pyRstrip (l : List Char) : List Char :=
  (l.reverse.dropWhile isSpacePy).reverse

/-- Python `needle in haystack` substring containment. -/
def containsSub (n : List Char) : List Char → Bool
  | [] => n.isEmpty
  | c :: rest => n.isPrefixOf (c :: rest) || containsSub n rest

/-- Helper for `pySplitlines`: accumulates the current line (reversed). -/
def splitlinesGo : List Char → List Char → List (List Char)
  | [], acc => [acc.reverse]
  | '\r' :: '\n' :: rest, acc =>
      acc.reverse :: (match rest with | [] => [] | _ :: _ => splitlinesGo rest [])
  | '\r' :: rest, acc =>
      acc.reverse :: (match rest with | [] => [] | _ :: _ => splitlinesGo rest [])
  | '\n' :: rest, acc =>
      acc.reverse :: (match rest with | [] => [] | _ :: _ => splitlinesGo rest [])
  | c :: rest, acc => splitlinesGo rest (c :: acc)

/-- Python `str.splitlines` (on the line breaks used by the statements:
`\n`, `\r`, `\r\n`); a trailing break produces no empty final line. -/
def pySplitlines (s : List Char) : List (List Char) :=
  match s with
  | [] => []
  | _ :: _ => splitlinesGo s []

/-!  The regex syntax and backtracking matcher.  -/

/-- Capture environment: group index to captured substring. -/
def Caps : Type := Nat → Option (List Char)

/-- The empty capture environment. -/
def noCaps : Caps := fun _ => none

/-- Record a capture for group `i`. -/
def setCap (caps : Caps) (i : Nat) (v : List Char) : Caps :=
  fun j => if j = i then some v else caps j

/-- Regex syntax covering the constructs used by the four source patterns:
single-character classes, literals, sequencing, greedy `*`/`+` and lazy `+?`
over character classes, greedy `(?:...)?`, capture groups and `$`. -/
inductive RE : Type where
  | eps : RE
  | lit : Char → RE
  | cls : (Char → Bool) → RE
  | strL : List Char → RE
  | seq : RE → RE → RE
  | opt : RE → RE
  | starG : (Char → Bool) → RE
  | plusG : (Char → Bool) → RE
  | plusL : (Char → Bool) → RE
  | group : Nat → RE → RE
  | eol : RE

/-- Sequencing of a pattern list. -/
def RE.cat (l : List RE) : RE := l.foldr RE.seq RE.eps

/-- Greedy repetition over a character class: consume as many class
characters as possible, backtracking to shorter prefixes on failure. -/
def starGo {α : Type} (p : Char → Bool) (k : List Char → Caps → Option α) :
    List Char → Caps → Option α
  | [], caps => k [] caps
  | c :: s, caps =>
    if p c then
      match starGo p k s caps with
      | some r => some r
      | none => k (c :: s) caps
    else k (c :: s) caps

/-- Lazy repetition over a character class: try the continuation first and
consume one further class character only on failure. -/
def lazyGo {α : Type} (p : Char → Bool) (k : List Char → Caps → Option α) :
    List Char → Caps → Option α
  | [], caps => k [] caps
  | c :: s, caps =>
    match k (c :: s) caps with
    | some r => some r
    | none => if p c then lazyGo p k s caps else none

/-- Backtracking matcher in continuation-passing style, following the
preference order of Python's `re` engine. -/
def matchRE {α : Type} : RE → List Char → Caps → (List Char → Caps → Option α) → Option α
  | .eps, s, caps, k => k s caps
  | .lit c, s, caps, k =>
    match s with
    | [] => none
    | c' :: s' => if c' = c then k s' caps else none
  | .cls p, s, caps, k =>
    match s with
    | [] => none
    | c :: s' => if p c then k s' caps else none
  | .strL t, s, caps, k =>
    if t.isPrefixOf s then k (s.drop t.length) caps else none
  | .seq a b, s, caps, k => matchRE a s caps fun s' caps' => matchRE b s' caps' k
  | .opt a, s, caps, k =>
    match matchRE a s caps k with
    | some r => some r
    | none => k s caps
  | .starG p, s, caps, k => starGo p k s caps
  | .plusG p, s, caps, k =>
    match s with
    | [] => none
    | c :: s' => if p c then starGo p k s' caps else none
  | .plusL p, s, caps, k =>
    match s with
    | [] => none
    | c :: s' => if p c then lazyGo p k s' caps else none
  | .group i a, s, caps, k =>
    matchRE a s caps fun s' caps' => k s' (setCap caps' i (s.take (s.length - s'.length)))
  | .eol, s, caps, k =>
    match s with
    | [] => k [] caps
    | _ :: _ => none

/-- Python `pattern.match(line)` for a pattern anchored at the start
(all embedded patterns that are used anchored end in `$`). -/
def runREanch (r : RE) (l : List Char) : Option Caps :=
  matchRE r l noCaps fun _ caps => some caps

/-- Python `pattern.search(line)`: try each start position left to right. -/
def searchRE (r : RE) : List Char → Option Caps
  | [] => matchRE r [] noCaps fun _ caps => some caps
  | c :: rest =>
    match matchRE r (c :: rest) noCaps (fun _ caps => some caps) with
    | some caps => some caps
    | none => searchRE r rest

/-!  The four source patterns.  Group indices stand for the named groups:
0 = date, 1 = description, 2 = country, 3 = value.  -/

/-- Source pattern `BB_CREDIT_TRANSACTION_RE`:
`^(?P<date>\d{2}\.\d{2}\.\d{4})(?P<description>.+?)\s*(?P<country>[A-Z]{2})\s+(?P<value>-?[\d.,]+)\s+[\d.,]+$`. -/
def BB_CREDIT_TRANSACTION_RE : RE := .cat [
  .group 0 (.cat [.cls reDig, .cls reDig, .lit '.', .cls reDig, .cls reDig,
                  .lit '.', .cls reDig, .cls reDig, .cls reDig, .cls reDig]),
  .group 1 (.plusL (fun c => !(c == '\n'))),
  .starG isSpacePy,
  .group 2 (.cat [.cls reUpper, .cls reUpper]),
  .plusG isSpacePy,
  .group 3 (.cat [.opt (.lit '-'), .plusG reValChar]),
  .plusG isSpacePy, .plusG reValChar, .eol]

/-- Source pattern `BB_CREDIT_TOTAL_RE`:
`^\s*Total\s+[\d\s]+\s+([\d.,]+)\s+[\d.,]+$`. -/
def BB_CREDIT_TOTAL_RE : RE := .cat [
  .starG isSpacePy, .strL "Total".data, .plusG isSpacePy,
  .plusG (fun c => reDig c || isSpacePy c), .plusG isSpacePy,
  .group 0 (.plusG reValChar), .plusG isSpacePy, .plusG reValChar, .eol]

/-- Source pattern `TRANSACTION_RE`:
`^(?P<date>\d{2}/\d{2})\s+(?P<description>.+?)(?:\s+(?P<country>[A-Z]{2})\s+)?\s*R\$\s*(?P<value>-?[\d.,]+)$`. -/
def TRANSACTION_RE : RE := .cat [
  .group 0 (.cat [.cls reDig, .cls reDig, .lit '/', .cls reDig, .cls reDig]),
  .plusG isSpacePy,
  .group 1 (.plusL (fun c => !(c == '\n'))),
  .opt (.cat [.plusG isSpacePy,
              .group 2 (.cat [.cls reUpper, .cls reUpper]),
              .plusG isSpacePy]),
  .starG isSpacePy, .strL "R$".data, .starG isSpacePy,
  .group 3 (.cat [.opt (.lit '-'), .plusG reValChar]),
  .eol]

/-- Source pattern `TOTAL_RE`: `Total da Fatura\s+R\$\s*([\d.,]+)` (unanchored,
used with `search`). -/
def TOTAL_RE : RE := .cat [
  .strL "Total da Fatura".data, .plusG isSpacePy, .strL "R$".data,
  .starG isSpacePy, .group 0 (.plusG reValChar)]

/-- Source pattern of the category-header check inside both parsers:
`^[A-Za-zÀ-ÿ][A-Za-zÀ-ÿ\s]*[A-Za-zÀ-ÿ]$`. -/
def CATEGORY_RE : RE := .cat [
  .cls isLetterBR, .starG (fun c => isLetterBR c || isSpacePy c),
  .cls isLetterBR, .eol]

/-!  Money decoding (`parse_money_value`).  -/

/-- Numeric value of a digit character. -/
def digitVal (c : Char) : ℕ := c.toNat - 48

/-- Value of a most-significant-first digit string. -/
def valDigits (l : List Char) : ℕ := l.foldl (fun a c => 10 * a + digitVal c) 0

/-- Python `float(s)` on an unsigned decimal string over the characters the
program can feed it (digits and `.` after `parse_money_value`'s replaces,
plus whatever a malformed statement produced): accepts `digits`,
`digits.digits`, `digits.` and `.digits`, and raises (`none`) otherwise —
in particular on an empty string, a lone `.`, or more than one `.`.
The decimal value `p + f / 10^k` is built as `mkRat (p * 10^k + f) (10^k)`,
the same rational. -/
def pyFloatUnsigned (t : List Char) : Option ℚ :=
  let pre := t.takeWhile (fun c => !(c == '.'))
  match t.dropWhile (fun c => !(c == '.')) with
  | [] => if pre.all reDig && !pre.isEmpty then some (mkRat (Int.ofNat (valDigits pre)) 1) else none
  | '.' :: rest =>
    if pre.all reDig && rest.all reDig && (!pre.isEmpty || !rest.isEmpty) then
      some (mkRat (Int.ofNat (valDigits pre * 10 ^ rest.length + valDigits rest))
                  (10 ^ rest.length))
    else none
  | _ :: _ => none

/-- Python `float(s)` with an optional leading sign. -/
def pyFloat (s : List Char) : Option ℚ :=
  match s with
  | '-' :: t => (pyFloatUnsigned t).map Rat.neg
  | t => pyFloatUnsigned t

/-- Source `parse_money_value`: `float(value.replace(".", "").replace(",", "."))`;
`none` models the `ValueError` escaping. -/
def parse_money_value (value : List Char) : Option ℚ :=
  pyFloat ((value.filter (fun c => !(c == '.'))).map (fun c => if c == ',' then '.' else c))

/-!  Data model and the two line classifiers.  -/

/-- One parsed financial movement, the dict appended by both parsers
(`date`, `description`, `category`, `country`, `amount`). -/
structure Tx where
  date : String
  description : String
  category : String
  country : String
  amount : ℚ
deriving DecidableEq

/-- The dict returned by `parse_statement` / `parse_bb_credit_card`:
transactions in document order, their sum, and the optional declared total. -/
structure ParseResult where
  transactions : List Tx
  total_captured : ℚ
  expected_total : Option ℚ
deriving DecidableEq

/-- Python `x or default` for an optional string (`None` and the empty
string are falsy, as in `current_category or "Uncategorized"`). -/
def pyOr (x : Option (List Char)) (default : List Char) : List Char :=
  match x with
  | none => default
  | some s => if s.isEmpty then default else s

/-- Python `sum(t["amount"] for t in transactions)`. -/
def sumAmounts (txs : List Tx) : ℚ :=
  txs.foldl (fun a t => Rat.add a t.amount) 0

/-- The ignore-phrase list of `parse_statement` (step 1 of its loop). -/
def genIgnorePhrases : List (List Char) :=
  ["DATA DESCRIÇÃO PAÍS VALOR".data, "SALDO FATURA ANTERIOR".data,
   "SUBTOTAL".data, "TOTAL DA FATURA".data]

/-- The ignore-phrase list of `parse_bb_credit_card` (step 2 of its loop). -/
def bbIgnorePhrases : List (List Char) :=
  ["DATA     TRANSAÇÕES".data, "SALDO FATURA ANTERIOR".data,
   "SUBTOTAL".data, "TOTAL".data, "----".data]

/-- One iteration of the `parse_statement` line loop: given the running
`current_category` and the (already normalized) line, returns the new state
and the emitted transaction, if any; `none` models a `ValueError` escaping
from `parse_money_value`. -/
def genStep (current : Option (List Char)) (line : List Char) :
    Option (Option (List Char) × Option Tx) :=
  let u := pyUpper line
  if genIgnorePhrases.any (fun p => containsSub p u) then some (current, none)
  else if containsSub "PGTO DEBITO CONTA".data u then some (current, none)
  else if containsSub "PAGAMENTOS/CRÉDITOS".data u then some (some "Refunds".data, none)
  else if (runREanch CATEGORY_RE line).isSome
          && !containsSub "R$".data line && !containsSub "/".data line then
    some (some (pyStrip line), none)
  else
    match runREanch TRANSACTION_RE line with
    | some caps =>
      match parse_money_value ((caps 3).getD []) with
      | none => none
      | some amount => some (current, some {
          date := ⟨(caps 0).getD []⟩,
          description := ⟨pyStrip ((caps 1).getD [])⟩,
          category := ⟨pyOr current "Uncategorized".data⟩,
          country := ⟨pyStrip (pyOr (caps 2) "BR".data)⟩,
          amount := amount })
    | none => some (current, none)

/-- One iteration of the `parse_bb_credit_card` line loop (same shape;
the header test additionally requires the line to contain no digit, and
`country` is taken as captured, with no default and no strip). -/
def bbStep (current : Option (List Char)) (line : List Char) :
    Option (Option (List Char) × Option Tx) :=
  let u := pyUpper line
  if bbIgnorePhrases.any (fun p => containsSub p u) then some (current, none)
  else if containsSub "PAGAMENTOS/CRÉDITOS".data u then some (some "Refunds".data, none)
  else if (runREanch CATEGORY_RE line).isSome && !(line.any reDig) then
    some (some (pyStrip line), none)
  else
    match runREanch BB_CREDIT_TRANSACTION_RE line with
    | some caps =>
      match parse_money_value ((caps 3).getD []) with
      | none => none
      | some amount => some (current, some {
          date := ⟨(caps 0).getD []⟩,
          description := ⟨pyStrip ((caps 1).getD [])⟩,
          category := ⟨pyOr current "Uncategorized".data⟩,
          country := ⟨(caps 2).getD []⟩,
          amount := amount })
    | none => some (current, none)

/-- The full line loop: threads `current_category` through the lines and
collects appended transactions in document order; `none` propagates a
`ValueError`. -/
def runLines (step : Option (List Char) → List Char → Option (Option (List Char) × Option Tx)) :
    List (List Char) → Option (List Char) → Option (List Tx × Option (List Char))
  | [], c => some ([], c)
  | l :: ls, c =>
    match step c l with
    | none => none
    | some (c', t) =>
      match runLines step ls c' with
      | none => none
      | some (txs, cf) => some (t.toList ++ txs, cf)

/-- The list comprehension opening `parse_statement`: keep lines whose
`strip()` is non-empty and that do not start with `"Página"`, and strip
them (the `startswith` test runs on the unstripped line, as in the source). -/
def normalizeLines (text : String) : List (List Char) :=
  (pySplitlines text.data).filterMap fun l =>
    if !(pyStrip l).isEmpty && !("Página".data.isPrefixOf l) then some (pyStrip l) else none

/-- Source `extract_total`, parametrised by the matcher for the dialect's
total pattern (returning the first group on a match): scans the raw text's
lines for the first match and decodes its group; `some none` is the
"not found" return `None`, the outer `none` a `ValueError` escaping. -/
def extractTotalLines (matcher : List Char → Option (List Char)) :
    List (List Char) → Option (Option ℚ)
  | [] => some none
  | l :: ls =>
    match matcher l with
    | some g => (parse_money_value g).map some
    | none => extractTotalLines matcher ls

/-- Source `extract_total(text, total_re)`. -/
def extract_total (text : String) (matcher : List Char → Option (List Char)) :
    Option (Option ℚ) :=
  extractTotalLines matcher (pySplitlines text.data)

/-- The `TOTAL_RE` matcher: `TOTAL_RE.search(line)`, group 1. -/
def totalMatcherGeneric (l : List Char) : Option (List Char) :=
  (searchRE TOTAL_RE l).map fun caps => (caps 0).getD []

/-- The `BB_CREDIT_TOTAL_RE` matcher; its pattern starts with `^`, so
`search` can only match at position 0. -/
def totalMatcherBB (l : List Char) : Option (List Char) :=
  (runREanch BB_CREDIT_TOTAL_RE l).map fun caps => (caps 0).getD []

/-- Source `parse_statement(text)`; `none` models a `ValueError` escaping
(the source has no exception handler). -/
def parse_statement (text : String) : Option ParseResult :=
  match runLines genStep (normalizeLines text) none with
  | none => none
  | some (txs, _) =>
    match extract_total text totalMatcherGeneric with
    | none => none
    | some et => some ⟨txs, sumAmounts txs, et⟩

/-- The section extraction opening `parse_bb_credit_card`: keep non-blank
lines strictly between the `DEMONSTRATIVO` marker and the `RESUMO EM REAL`
marker, right-stripped. -/
def bbSectionLines : List (List Char) → Bool → List (List Char)
  | [], _ => []
  | l :: ls, inSec =>
    if containsSub "DEMONSTRATIVO".data l then bbSectionLines ls true
    else if containsSub "RESUMO EM REAL".data l then []
    else if inSec && !(pyStrip l).isEmpty then pyRstrip l :: bbSectionLines ls inSec
    else bbSectionLines ls inSec

/-- Source `parse_bb_credit_card(text)`. -/
def parse_bb_credit_card (text : String) : Option ParseResult :=
  let lines := (bbSectionLines (pySplitlines text.data) false).map pyStrip
  match runLines bbStep lines none with
  | none => none
  | some (txs, _) =>
    match extract_total text totalMatcherBB with
    | none => none
    | some et => some ⟨txs, sumAmounts txs, et⟩

/-- Source `is_bb_credit_card(text)`. -/
def is_bb_credit_card (text : String) : Bool :=
  containsSub "SISBB - Sistema de Informações Banco do Brasil".data text.data &&
  containsSub "Fatura do Cartão de Crédito".data text.data

/-!  The reconciliation gate of `parse_file` (lines 262-277 of the source). -/

/-- Reconciliation outcome, tagging the three observably distinct branches
of `parse_file` after parsing: the `expected_total is None` branch (prints
`ERROR`, returns early), the tolerance branch (prints `SUCCESS` and
exports), and the mismatch branch (prints `FAILURE` with the signed
difference and skips the export). -/
inductive Outcome : Type where
  | Reconciled : Outcome
  | Mismatch : ℚ → Outcome
  | Indeterminate : Outcome
deriving DecidableEq

/-- What `parse_file` does after parsing, and what its caller receives:
which branch ran, whether `export_to_csv` was invoked, and the function's
return value.  Every branch of the source returns `None` (the early bare
`return`, and falling off the end of the function), hence `returned := none`
throughout. -/
structure FileOutcome where
  outcome : Outcome
  exported : Bool
  returned : Option ParseResult
deriving DecidableEq

/-- Python `abs` on a rational (in core operations). -/
def ratAbs (q : ℚ) : ℚ := if Rat.blt q 0 then Rat.neg q else q

/-- The post-parse logic of `parse_file`: the reconciliation comparison
`abs(result["total_captured"] - result["expected_total"]) < 0.01` (the float
literal `0.01` is modelled as the decimal it denotes, `mkRat 1 100`) gating
`export_to_csv`.  Core rational operations are used throughout; they agree
with the ordered-field operations on `ℚ` (see the bridge lemmas below). -/
def parse_file_check (result : ParseResult) : FileOutcome :=
  match result.expected_total with
  | none => ⟨.Indeterminate, false, none⟩
  | some e =>
    if Rat.blt (ratAbs (Rat.sub result.total_captured e)) (mkRat 1 100) then
      ⟨.Reconciled, true, none⟩
    else ⟨.Mismatch (Rat.sub result.total_captured e), false, none⟩

/-!  Money encoding (`format_brl`).  -/

/-- Digit character for a value below 10. -/
def digChar (d : ℕ) : Char := Char.ofNat (48 + d)

/-- Decimal digit characters of `n`, most significant first (empty for 0). -/
def digitsAux (n : ℕ) : List Char :=
  if h : n = 0 then [] else digitsAux (n / 10) ++ [digChar (n % 10)]
decreasing_by exact Nat.div_lt_self (Nat.pos_of_ne_zero h) (by omega)

/-- Decimal digit characters of `n`, most significant first (`"0"` for 0). -/
def natDigits (n : ℕ) : List Char := if n = 0 then ['0'] else digitsAux n

/-- Thousands grouping on a reversed digit list: after every third digit
(from the least significant end) insert the separator. -/
def g3r (sep : Char) : List Char → List Char
  | a :: b :: c :: d :: rest => a :: b :: c :: sep :: g3r sep (d :: rest)
  | l => l

/-- Thousands grouping of a most-significant-first digit list. -/
def group3 (sep : Char) (l : List Char) : List Char := (g3r sep l.reverse).reverse

/-- Two-digit, zero-padded rendering of `n < 100`. -/
def twoDigits (n : ℕ) : List Char := [digChar (n / 10), digChar (n % 10)]

/-- Python `f"{amount:,.2f}"` on the exact rational `amount`: sign, the
integer part grouped in threes by `,`, then `.` and two fractional digits.
`round` is exact on the inputs this program formats (multiples of 1/100);
Python rounds the nearest double instead, which agrees on that domain. -/
def pyFormatComma2 (q : ℚ) : List Char :=
  let n : ℤ := round (q * 100)
  let m : ℕ := n.natAbs
  (if n < 0 then ['-'] else []) ++ group3 ',' (natDigits (m / 100)) ++ ['.'] ++ twoDigits (m % 100)

/-- Python `str.replace` of one character by one character. -/
def swapChar (a b : Char) (l : List Char) : List Char :=
  l.map fun c => if c = a then b else c

/-- Source `format_brl`: `f"{amount:,.2f}"` followed by
`.replace(",", "X").replace(".", ",").replace("X", ".")`. -/
def format_brl (q : ℚ) : List Char :=
  swapChar 'X' '.' (swapChar '.' ',' (swapChar ',' 'X' (pyFormatComma2 q)))


/-- The ordering property derived for C10: transactions carrying the
`"Uncategorized"` sentinel form a prefix of the output (no transaction with
another category precedes one with the sentinel). -/
def uncatPrefix (txs : List Tx) : Bool :=
  (txs.dropWhile (fun t => t.category == "Uncategorized")).all
    (fun t => !(t.category == "Uncategorized"))

/-- Shape of one classifier step, shared by both dialects: a step either
skips the line with no state change, enters the refund section, installs a
(non-empty) category header, or emits a transaction carrying the current
category (state unchanged), defaulting to the `"Uncategorized"` sentinel. -/
def StepLocal
    (step : Option (List Char) → List Char → Option (Option (List Char) × Option Tx)) : Prop :=
  ∀ c l r, step c l = some r →
    r = (c, none) ∨
    r = (some "Refunds".data, none) ∨
    (r = (some (pyStrip l), none) ∧ pyStrip l ≠ []) ∨
    (∃ tx, r = (c, some tx) ∧ tx.category = String.mk (pyOr c "Uncategorized".data))


/-- Pointwise effect of the three-`replace` chain in `format_brl`:
grouping commas become dots, the decimal dot becomes a comma. -/
def swapChain (c : Char) : Char :=
  if c = ',' then '.' else if c = '.' then ',' else if c = 'X' then '.' else c

/-!  Bridge lemmas: the core rational operations used by the executable
definitions agree with the ordered-field structure of `ℚ`.  -/

theorem ratSub_eq (a b : ℚ) : Rat.sub a b = a - b := rfl

theorem ratNeg_eq (q : ℚ) : Rat.neg q = -q := rfl

theorem ratAdd_eq (a b : ℚ) : Rat.add a b = a + b := rfl

theorem ratBlt_iff (a b : ℚ) : (Rat.blt a b = true) ↔ a < b := Iff.rfl

theorem mkRat_one_hundredth : (mkRat 1 100 : ℚ) = 1 / 100 := by
  rw [Rat.mkRat_eq_divInt, Rat.divInt_eq_div]; norm_num

theorem ratAbs_eq (q : ℚ) : ratAbs q = |q| := by
  unfold ratAbs
  rcases lt_or_le q 0 with h | h
  · rw [if_pos (by exact (ratBlt_iff q 0).mpr h), ratNeg_eq, abs_of_neg h]
  · rw [if_neg (by simp only [ratBlt_iff]; exact not_lt.mpr h), abs_of_nonneg h]

/-!  Claim theorems.  -/

/-- C1: the reconciliation outcome of `parse_file` is a pure function of
`total_captured` and `expected_total` (the transaction list is irrelevant);
an absent `expected_total` yields `Indeterminate`, distinct from both
`Reconciled` and every `Mismatch`; with `expected_total = e` the outcome is
`Reconciled` exactly when `|total_captured - e| < 0.01` and otherwise
`Mismatch (total_captured - e)`. -/
theorem C1_reconciliation_pure (tc : ℚ) (et : Option ℚ) (txs txs' : List Tx) :
    (parse_file_check ⟨txs, tc, et⟩).outcome = (parse_file_check ⟨txs', tc, et⟩).outcome ∧
    (parse_file_check ⟨txs, tc, none⟩).outcome = Outcome.Indeterminate ∧
    (Outcome.Indeterminate ≠ Outcome.Reconciled ∧ ∀ d : ℚ, Outcome.Indeterminate ≠ Outcome.Mismatch d) ∧
    ∀ e : ℚ,
      ((parse_file_check ⟨txs, tc, some e⟩).outcome = Outcome.Reconciled ↔ |tc - e| < 1 / 100) ∧
      (¬ |tc - e| < 1 / 100 →
        (parse_file_check ⟨txs, tc, some e⟩).outcome = Outcome.Mismatch (tc - e)) := by
  have hcond : ∀ e : ℚ, (Rat.blt (ratAbs (Rat.sub tc e)) (mkRat 1 100) = true) ↔ |tc - e| < 1 / 100 := by
    intro e; rw [ratBlt_iff, ratAbs_eq, ratSub_eq, mkRat_one_hundredth]
  refine ⟨rfl, rfl, ⟨fun h => Outcome.noConfusion h, fun d h => Outcome.noConfusion h⟩, fun e => ?_⟩
  have hshow : parse_file_check ⟨txs, tc, some e⟩ =
      if Rat.blt (ratAbs (Rat.sub tc e)) (mkRat 1 100) = true then
        ⟨Outcome.Reconciled, true, none⟩
      else ⟨Outcome.Mismatch (Rat.sub tc e), false, none⟩ := rfl
  by_cases h : |tc - e| < 1 / 100
  · have hb : Rat.blt (ratAbs (Rat.sub tc e)) (mkRat 1 100) = true := (hcond e).mpr h
    refine ⟨⟨fun _ => h, fun _ => ?_⟩, fun hn => absurd h hn⟩
    rw [hshow, if_pos hb]
  · have hb : ¬ Rat.blt (ratAbs (Rat.sub tc e)) (mkRat 1 100) = true := fun hb => h ((hcond e).mp hb)
    constructor
    · rw [hshow, if_neg hb]
      exact ⟨fun hcontr => Outcome.noConfusion hcontr, fun hcontr => absurd hcontr h⟩
    · intro _
      rw [hshow, if_neg hb, ratSub_eq]

/-- Witness for C1 at a concrete mismatching input. -/
theorem C1_reconciliation_pure_witness :
    (¬ |(0 : ℚ) - 5| < 1 / 100) ∧
    (parse_file_check ⟨[], 0, some 5⟩).outcome = Outcome.Mismatch ((0 : ℚ) - 5) :=
  have h : ¬ |(0 : ℚ) - 5| < 1 / 100 := by norm_num
  ⟨h, ((C1_reconciliation_pure 0 (some 5) [] []).2.2.2 5).2 h⟩

/-- C2 (code_bug evidence): the line `"01/02 X R$ ,"` matches
`TRANSACTION_RE` with value field `","`, that field cannot be decoded
(`float(".")` raises `ValueError`), and `parse_statement` on this input
aborts with the exception (`none`) instead of dropping the line and
returning a `ParseResult`. -/
theorem C2_malformed_amount_crash :
    (runREanch TRANSACTION_RE "01/02 X R$ ,".data).isSome = true ∧
    parse_money_value ",".data = none ∧
    parse_statement "01/02 X R$ ," = none :=
  of_decide_eq_true (by with_unfolding_all rfl)

/-- C3 counterexample: on Scenario A's text, the transaction's description
is not `"PADARIA DO ZE"` (the trailing `"ZE"` is captured by the optional
country group of `TRANSACTION_RE`, contradicting the claim's description
value). -/
theorem C3_scenarioA_cex :
    ((parse_statement "Restaurantes\n01/02 PADARIA DO ZE    R$ 25,00\nTotal da Fatura R$ 25,00").map
      (fun r => r.transactions.map Tx.description)) ≠ some ["PADARIA DO ZE"] :=
  of_decide_eq_true (by with_unfolding_all rfl)

/-- C3 as amended: Scenario A's text parses to exactly one transaction with
date `"01/02"`, description `"PADARIA DO"`, category `"Restaurantes"`,
country `"ZE"` and amount 25.00, with `total_captured = 25.00` and
`expected_total = 25.00`, and the reconciliation outcome is `Reconciled`. -/
theorem C3_scenarioA_amended :
    parse_statement "Restaurantes\n01/02 PADARIA DO ZE    R$ 25,00\nTotal da Fatura R$ 25,00" =
      some ⟨[⟨"01/02", "PADARIA DO", "Restaurantes", "ZE", 25⟩], 25, some 25⟩ ∧
    (parse_file_check ⟨[⟨"01/02", "PADARIA DO", "Restaurantes", "ZE", 25⟩], 25, some 25⟩).outcome =
      Outcome.Reconciled :=
  of_decide_eq_true (by with_unfolding_all rfl)

/-- C5 (code_bug evidence): evaluating the post-parse logic of `parse_file`
on the three kinds of parse results shows that `export_to_csv` runs exactly
on a `Reconciled` outcome, but the caller receives `None` (`returned = none`)
in every branch — including `Indeterminate` and `Mismatch`, where the claim
promises the full parsed data. -/
theorem C5_export_gate_returns_none :
    parse_file_check ⟨[], 0, none⟩ = ⟨Outcome.Indeterminate, false, none⟩ ∧
    parse_file_check ⟨[], 25, some 25⟩ = ⟨Outcome.Reconciled, true, none⟩ ∧
    parse_file_check ⟨[], 0, some 5⟩ = ⟨Outcome.Mismatch (-5), false, none⟩ :=
  of_decide_eq_true (by with_unfolding_all rfl)

/-- C6 (code_bug evidence): `extract_total` returns the decoded amount of
the first matching line and an explicit "not found" (`some none`) when no
line matches; but when the matched line's numeric field cannot be decoded
(`"Total da Fatura R$ ,"`, whose captured group decodes via `float(".")`),
it raises (`none`) instead of degrading to "not found". -/
theorem C6_total_extractor_raises :
    extract_total "Total da Fatura R$ 25,00" totalMatcherGeneric = some (some 25) ∧
    extract_total "no declared total here" totalMatcherGeneric = some none ∧
    (totalMatcherGeneric "Total da Fatura R$ ,".data).isSome = true ∧
    extract_total "Total da Fatura R$ ," totalMatcherGeneric = none :=
  of_decide_eq_true (by with_unfolding_all rfl)

/-- C8: the bank-dialect grammar `BB_CREDIT_TRANSACTION_RE` matches the line
`"01.02.2024DESCRICAO XYZ US 100,00 100,00"` and the classifier emits a
transaction with amount 100.00 and country `"US"`; the second trailing
numeric field is consumed by the pattern but does not appear in the
transaction. -/
theorem C8_bb_two_trailing_numbers :
    (runREanch BB_CREDIT_TRANSACTION_RE "01.02.2024DESCRICAO XYZ US 100,00 100,00".data).isSome = true ∧
    bbStep none "01.02.2024DESCRICAO XYZ US 100,00 100,00".data =
      some (none, some ⟨"01.02.2024", "DESCRICAO XYZ", "Uncategorized", "US", 100⟩) :=
  of_decide_eq_true (by with_unfolding_all rfl)

/-- C7: a line containing an ignore-list phrase (after upper-casing) is
skipped with no state change by both classifiers: no transaction is emitted
and `current_category` is untouched.  For the generic dialect the phrases
are the four-entry ignore list plus the previous-period payment phrase
`"PGTO DEBITO CONTA"`; for the bank dialect the five-entry list including
`"TOTAL"` and the separator run `"----"`. -/
theorem C7_ignore_list_skips (line : List Char) (c : Option (List Char)) :
    ((genIgnorePhrases.any (fun p => containsSub p (pyUpper line)) = true ∨
      containsSub "PGTO DEBITO CONTA".data (pyUpper line) = true) →
      genStep c line = some (c, none)) ∧
    (bbIgnorePhrases.any (fun p => containsSub p (pyUpper line)) = true →
      bbStep c line = some (c, none)) := by
  constructor
  · rintro (h | h)
    · simp [genStep, h]
    · by_cases hA : genIgnorePhrases.any (fun p => containsSub p (pyUpper line)) = true
      · simp [genStep, hA]
      · simp [genStep, hA, h]
  · intro h
    simp [bbStep, h]

/-- Witness for C7 on a previous-balance line and a separator line. -/
theorem C7_ignore_list_skips_witness :
    genStep (some "X".data) "Saldo Fatura Anterior".data = some (some "X".data, none) ∧
    bbStep (some "X".data) "x ---- x".data = some (some "X".data, none) :=
  ⟨(C7_ignore_list_skips "Saldo Fatura Anterior".data (some "X".data)).1 (Or.inl (by decide)),
   (C7_ignore_list_skips "x ---- x".data (some "X".data)).2 (by decide)⟩

/-- The line loop is a single left-to-right pass: its output on appended
line lists decomposes into the output on the first part (computed with no
access to the second) followed by the output on the second part started
from the first part's final state. -/
theorem runLines_append
    (step : Option (List Char) → List Char → Option (Option (List Char) × Option Tx))
    (ls₁ ls₂ : List (List Char)) (c : Option (List Char)) :
    runLines step (ls₁ ++ ls₂) c =
      (match runLines step ls₁ c with
       | none => none
       | some (t1, c1) =>
         match runLines step ls₂ c1 with
         | none => none
         | some (t2, c2) => some (t1 ++ t2, c2)) := by
  induction ls₁ generalizing c with
  | nil =>
    simp only [List.nil_append, runLines]
    cases hr : runLines step ls₂ c with
    | none => rfl
    | some p => obtain ⟨t2, c2⟩ := p; simp
  | cons l ls ih =>
    simp only [List.cons_append, runLines]
    cases hs : step c l with
    | none => rfl
    | some p =>
      obtain ⟨c', t⟩ := p
      dsimp only
      simp only [List.append_eq]
      rw [ih c']
      cases h1 : runLines step ls c' with
      | none => rfl
      | some q =>
        obtain ⟨t1, c1⟩ := q
        dsimp only
        cases h2 : runLines step ls₂ c1 with
        | none => rfl
        | some r => obtain ⟨t2, c2⟩ := r; dsimp only; simp [List.append_assoc]

/-- C4: every transaction's fields — in particular its category — are
determined solely by the lines preceding it (and the initial state): for
both dialect classifiers, running the loop on `ls₁ ++ ls₂` emits exactly
the transactions computed from `ls₁` alone, unchanged by whatever category
headers appear later in `ls₂`, followed by those computed from `ls₂` in the
state `ls₁` left behind. -/
theorem C4_no_lookahead (ls₁ ls₂ : List (List Char)) (c : Option (List Char)) :
    (runLines genStep (ls₁ ++ ls₂) c =
      (match runLines genStep ls₁ c with
       | none => none
       | some (t1, c1) =>
         match runLines genStep ls₂ c1 with
         | none => none
         | some (t2, c2) => some (t1 ++ t2, c2))) ∧
    (runLines bbStep (ls₁ ++ ls₂) c =
      (match runLines bbStep ls₁ c with
       | none => none
       | some (t1, c1) =>
         match runLines bbStep ls₂ c1 with
         | none => none
         | some (t2, c2) => some (t1 ++ t2, c2))) :=
  ⟨runLines_append genStep ls₁ ls₂ c, runLines_append bbStep ls₁ ls₂ c⟩

/-!  Auxiliary lemmas for C10.  -/

/-- A line whose `strip()` is empty consists of white-space only. -/
theorem all_space_of_pyStrip_eq_nil {l : List Char} (h : pyStrip l = []) :
    ∀ x ∈ l, isSpacePy x = true := by
  unfold pyStrip at h
  rw [List.reverse_eq_nil_iff, List.dropWhile_eq_nil_iff] at h
  intro x hx
  have hx' : x ∈ l.takeWhile isSpacePy ++ l.dropWhile isSpacePy := by
    rw [List.takeWhile_append_dropWhile]; exact hx
  rcases List.mem_append.mp hx' with h1 | h2
  · exact List.mem_takeWhile_imp h1
  · exact h x (List.mem_reverse.mpr h2)

/-- Letters of the category-header class are not white-space. -/
theorem isLetterBR_not_space (c : Char) (h : isLetterBR c = true) : isSpacePy c = false := by
  by_contra hs
  have hs' : isSpacePy c = true := by simpa using hs
  have hmem : c ∈ ([' ', '\t', '\n', '\x0b', '\x0c', '\r',
      '\x1c', '\x1d', '\x1e', '\x1f', '\x85', '\xa0',
      ' ', ' ', ' ', ' ', ' ', ' ',
      ' ', ' ', ' ', ' ', ' ', ' ',
      ' ', ' ', ' ', ' ', '　'] : List Char) := by
    unfold isSpacePy at hs'
    exact of_decide_eq_true hs'
  fin_cases hmem <;> exact absurd h (by decide)

/-- A line accepted by the category-header pattern does not strip to the
empty string (its first character is a letter). -/
theorem pyStrip_ne_nil_of_category (l : List Char)
    (h : (runREanch CATEGORY_RE l).isSome = true) : pyStrip l ≠ [] := by
  cases l with
  | nil => exact absurd h (by decide)
  | cons c rest =>
    intro hnil
    have hc := all_space_of_pyStrip_eq_nil hnil c (List.mem_cons_self c rest)
    by_cases hL : isLetterBR c = true
    · rw [isLetterBR_not_space c hL] at hc
      exact Bool.noConfusion hc
    · have hL' : isLetterBR c = false := by simpa using hL
      have hnone : runREanch CATEGORY_RE (c :: rest) = none := by
        simp [runREanch, CATEGORY_RE, RE.cat, List.foldr, matchRE, hL']
      rw [hnone] at h
      exact Bool.noConfusion h

/-- The generic-dialect step has the shared step shape. -/
theorem genStep_local : StepLocal genStep := by
  intro c l r h
  simp only [genStep] at h
  by_cases h1 : genIgnorePhrases.any (fun p => containsSub p (pyUpper l)) = true
  · rw [if_pos h1] at h; injection h with h; exact Or.inl h.symm
  rw [if_neg h1] at h
  by_cases h2 : containsSub "PGTO DEBITO CONTA".data (pyUpper l) = true
  · rw [if_pos h2] at h; injection h with h; exact Or.inl h.symm
  rw [if_neg h2] at h
  by_cases h3 : containsSub "PAGAMENTOS/CRÉDITOS".data (pyUpper l) = true
  · rw [if_pos h3] at h; injection h with h; exact Or.inr (Or.inl h.symm)
  rw [if_neg h3] at h
  by_cases h4 : ((runREanch CATEGORY_RE l).isSome && !containsSub "R$".data l
      && !containsSub "/".data l) = true
  · rw [if_pos h4] at h
    injection h with h
    refine Or.inr (Or.inr (Or.inl ⟨h.symm, ?_⟩))
    have hiso : (runREanch CATEGORY_RE l).isSome = true := by
      simp only [Bool.and_eq_true] at h4
      exact h4.1.1
    exact pyStrip_ne_nil_of_category l hiso
  rw [if_neg h4] at h
  cases hm : runREanch TRANSACTION_RE l with
  | none => rw [hm] at h; dsimp only at h; injection h with h; exact Or.inl h.symm
  | some caps =>
    rw [hm] at h; dsimp only at h
    cases hv : parse_money_value ((caps 3).getD []) with
    | none => rw [hv] at h; dsimp only at h; exact Option.noConfusion h
    | some amount =>
      rw [hv] at h; dsimp only at h
      injection h with h
      exact Or.inr (Or.inr (Or.inr ⟨_, h.symm, rfl⟩))

/-- The bank-dialect step has the shared step shape. -/
theorem bbStep_local : StepLocal bbStep := by
  intro c l r h
  simp only [bbStep] at h
  by_cases h1 : bbIgnorePhrases.any (fun p => containsSub p (pyUpper l)) = true
  · rw [if_pos h1] at h; injection h with h; exact Or.inl h.symm
  rw [if_neg h1] at h
  by_cases h3 : containsSub "PAGAMENTOS/CRÉDITOS".data (pyUpper l) = true
  · rw [if_pos h3] at h; injection h with h; exact Or.inr (Or.inl h.symm)
  rw [if_neg h3] at h
  by_cases h4 : ((runREanch CATEGORY_RE l).isSome && !(l.any reDig)) = true
  · rw [if_pos h4] at h
    injection h with h
    refine Or.inr (Or.inr (Or.inl ⟨h.symm, ?_⟩))
    have hiso : (runREanch CATEGORY_RE l).isSome = true := by
      simp only [Bool.and_eq_true] at h4
      exact h4.1
    exact pyStrip_ne_nil_of_category l hiso
  rw [if_neg h4] at h
  cases hm : runREanch BB_CREDIT_TRANSACTION_RE l with
  | none => rw [hm] at h; dsimp only at h; injection h with h; exact Or.inl h.symm
  | some caps =>
    rw [hm] at h; dsimp only at h
    cases hv : parse_money_value ((caps 3).getD []) with
    | none => rw [hv] at h; dsimp only at h; exact Option.noConfusion h
    | some amount =>
      rw [hv] at h; dsimp only at h
      injection h with h
      exact Or.inr (Or.inr (Or.inr ⟨_, h.symm, rfl⟩))

/-- After the state is set (and is neither empty nor the sentinel), every
transaction the loop emits carries a category other than the sentinel. -/
theorem runLines_all_nonuncat
    (step : Option (List Char) → List Char → Option (Option (List Char) × Option Tx))
    (hspec : StepLocal step) :
    ∀ (ls : List (List Char)) (s : List Char) (txs : List Tx) (cf : Option (List Char)),
      (∀ l ∈ ls, pyStrip l ≠ "Uncategorized".data) →
      s ≠ [] → s ≠ "Uncategorized".data →
      runLines step ls (some s) = some (txs, cf) →
      txs.all (fun t => !(t.category == "Uncategorized")) = true := by
  intro ls
  induction ls with
  | nil =>
    intro s txs cf _ _ _ h
    simp only [runLines, Option.some.injEq, Prod.mk.injEq] at h
    obtain ⟨h1, _⟩ := h
    rw [← h1]
    rfl
  | cons l ls ih =>
    intro s txs cf hlines hs1 hs2 h
    simp only [runLines] at h
    cases hm : step (some s) l with
    | none => rw [hm] at h; exact Option.noConfusion h
    | some p =>
      obtain ⟨c', t⟩ := p
      rw [hm] at h; dsimp only at h
      cases hr : runLines step ls c' with
      | none => rw [hr] at h; exact Option.noConfusion h
      | some q =>
        obtain ⟨txs', cf'⟩ := q
        rw [hr] at h; dsimp only at h
        simp only [Option.some.injEq, Prod.mk.injEq] at h
        obtain ⟨htx, _⟩ := h
        rw [← htx]
        have hlines' : ∀ x ∈ ls, pyStrip x ≠ "Uncategorized".data :=
          fun x hx => hlines x (List.mem_cons_of_mem l hx)
        rcases hspec (some s) l (c', t) hm with hcase | hcase | ⟨hcase, hne⟩ | ⟨tx, hcase, hcat⟩
        · obtain ⟨hc', ht⟩ := Prod.mk.injEq .. ▸ hcase
          subst ht
          rw [hc'] at hr
          simpa using ih s txs' cf' hlines' hs1 hs2 hr
        · obtain ⟨hc', ht⟩ := Prod.mk.injEq .. ▸ hcase
          subst ht
          rw [hc'] at hr
          simpa using ih "Refunds".data txs' cf' hlines' (by decide) (by decide) hr
        · obtain ⟨hc', ht⟩ := Prod.mk.injEq .. ▸ hcase
          subst ht
          rw [hc'] at hr
          simpa using ih (pyStrip l) txs' cf' hlines' hne
            (hlines l (List.mem_cons_self l ls)) hr
        · obtain ⟨hc', ht⟩ := Prod.mk.injEq .. ▸ hcase
          subst ht
          rw [hc'] at hr
          have hcats : tx.category = String.mk s := by
            rw [hcat]
            have hor : pyOr (some s) "Uncategorized".data = s := by
              simp only [pyOr]
              rw [if_neg (by simpa [List.isEmpty_iff] using hs1)]
            rw [hor]
          have hbeq : (tx.category == "Uncategorized") = false := by
            rw [hcats]
            refine beq_eq_false_iff_ne.mpr fun heq => hs2 ?_
            simpa using congrArg String.data heq
          simp only [Option.toList_some, List.all_cons, List.singleton_append, hbeq,
            Bool.not_false, Bool.true_and]
          exact ih s txs' cf' hlines' hs1 hs2 hr

/-- When every transaction's category differs from the sentinel, the
sentinel-prefix property holds vacuously. -/
theorem uncatPrefix_of_all (txs : List Tx)
    (h : txs.all (fun t => !(t.category == "Uncategorized")) = true) :
    uncatPrefix txs = true := by
  unfold uncatPrefix
  cases txs with
  | nil => rfl
  | cons a l =>
    have ha : (a.category == "Uncategorized") = false := by
      have h' := h
      simp only [List.all_cons, Bool.and_eq_true] at h'
      simpa using h'.1
    rw [List.dropWhile_cons, if_neg (by simp [ha])]
    exact h

/-- Starting from the unset state, sentinel-category transactions form a
prefix of the loop's output, provided no line itself strips to the word
`"Uncategorized"`. -/
theorem runLines_uncat_prefix
    (step : Option (List Char) → List Char → Option (Option (List Char) × Option Tx))
    (hspec : StepLocal step) :
    ∀ (ls : List (List Char)) (txs : List Tx) (cf : Option (List Char)),
      (∀ l ∈ ls, pyStrip l ≠ "Uncategorized".data) →
      runLines step ls none = some (txs, cf) → uncatPrefix txs = true := by
  intro ls
  induction ls with
  | nil =>
    intro txs cf _ h
    simp only [runLines, Option.some.injEq, Prod.mk.injEq] at h
    obtain ⟨h1, _⟩ := h
    rw [← h1]
    rfl
  | cons l ls ih =>
    intro txs cf hlines h
    simp only [runLines] at h
    cases hm : step none l with
    | none => rw [hm] at h; exact Option.noConfusion h
    | some p =>
      obtain ⟨c', t⟩ := p
      rw [hm] at h; dsimp only at h
      cases hr : runLines step ls c' with
      | none => rw [hr] at h; exact Option.noConfusion h
      | some q =>
        obtain ⟨txs', cf'⟩ := q
        rw [hr] at h; dsimp only at h
        simp only [Option.some.injEq, Prod.mk.injEq] at h
        obtain ⟨htx, _⟩ := h
        rw [← htx]
        have hlines' : ∀ x ∈ ls, pyStrip x ≠ "Uncategorized".data :=
          fun x hx => hlines x (List.mem_cons_of_mem l hx)
        rcases hspec none l (c', t) hm with hcase | hcase | ⟨hcase, hne⟩ | ⟨tx, hcase, hcat⟩
        · obtain ⟨hc', ht⟩ := Prod.mk.injEq .. ▸ hcase
          subst ht
          rw [hc'] at hr
          simpa using ih txs' cf' hlines' hr
        · obtain ⟨hc', ht⟩ := Prod.mk.injEq .. ▸ hcase
          subst ht
          rw [hc'] at hr
          have hall := runLines_all_nonuncat step hspec ls "Refunds".data txs' cf'
            hlines' (by decide) (by decide) hr
          simpa using uncatPrefix_of_all txs' hall
        · obtain ⟨hc', ht⟩ := Prod.mk.injEq .. ▸ hcase
          subst ht
          rw [hc'] at hr
          have hall := runLines_all_nonuncat step hspec ls (pyStrip l) txs' cf'
            hlines' hne (hlines l (List.mem_cons_self l ls)) hr
          simpa using uncatPrefix_of_all txs' hall
        · obtain ⟨hc', ht⟩ := Prod.mk.injEq .. ▸ hcase
          subst ht
          rw [hc'] at hr
          have hcats : tx.category = "Uncategorized" := hcat
          unfold uncatPrefix
          simp only [Option.toList_some, List.singleton_append, List.dropWhile_cons]
          rw [if_pos (by simp [hcats])]
          exact ih txs' cf' hlines' hr

/-- C10 counterexample: a document whose third line is the literal word
`"Uncategorized"` — a valid category header — makes the parser emit a
transaction with category `"Uncategorized"` *after* a transaction whose
category came from the earlier header `"Comida"`, so the claimed ordering
("all Uncategorized transactions precede every header-categorized one")
fails as stated. -/
theorem C10_uncategorized_cex :
    parse_statement "Comida\n01/02 A R$ 1,00\nUncategorized\n01/02 B R$ 2,00" =
      some ⟨[⟨"01/02", "A", "Comida", "BR", 1⟩, ⟨"01/02", "B", "Uncategorized", "BR", 2⟩],
            3, none⟩ ∧
    uncatPrefix [⟨"01/02", "A", "Comida", "BR", 1⟩,
                 ⟨"01/02", "B", "Uncategorized", "BR", 2⟩] = false :=
  of_decide_eq_true (by with_unfolding_all rfl)

/-- C10 as amended: in both dialects, once `current_category` is set it
never reverts to unset; and provided no normalized line is itself the
word `"Uncategorized"` (so the sentinel can only arise from the unset
state), the transactions carrying the `"Uncategorized"` sentinel form a
prefix of the output, preceding every transaction categorized by a header
or the refund marker. -/
theorem C10_category_monotone (c : Option (List Char)) (line : List Char)
    (r : Option (List Char) × Option Tx) (ls : List (List Char))
    (txs : List Tx) (cf : Option (List Char)) :
    (genStep c line = some r → c.isSome = true → r.1.isSome = true) ∧
    (bbStep c line = some r → c.isSome = true → r.1.isSome = true) ∧
    ((∀ l ∈ ls, pyStrip l ≠ "Uncategorized".data) →
      runLines genStep ls none = some (txs, cf) → uncatPrefix txs = true) ∧
    ((∀ l ∈ ls, pyStrip l ≠ "Uncategorized".data) →
      runLines bbStep ls none = some (txs, cf) → uncatPrefix txs = true) := by
  refine ⟨?_, ?_,
    fun hl h => runLines_uncat_prefix genStep genStep_local ls txs cf hl h,
    fun hl h => runLines_uncat_prefix bbStep bbStep_local ls txs cf hl h⟩
  · intro h hc
    rcases genStep_local c line r h with rfl | rfl | ⟨rfl, _⟩ | ⟨tx, rfl, _⟩ <;> simp_all
  · intro h hc
    rcases bbStep_local c line r h with rfl | rfl | ⟨rfl, _⟩ | ⟨tx, rfl, _⟩ <;> simp_all

/-- Witness for C10 on concrete inputs: a run producing one sentinel
transaction, and a refund-marker step from a set state. -/
theorem C10_category_monotone_witness :
    uncatPrefix [⟨"01/02", "A", "Uncategorized", "BR", 1⟩] = true ∧
    (some "Refunds".data : Option (List Char)).isSome = true := by
  constructor
  · exact (C10_category_monotone none [] (none, none)
      ["01/02 A R$ 1,00".data] [⟨"01/02", "A", "Uncategorized", "BR", 1⟩] none).2.2.1
      (by intro l hl; fin_cases hl; decide)
      (of_decide_eq_true (by with_unfolding_all rfl))
  · exact (C10_category_monotone (some "X".data) "PAGAMENTOS/CRÉDITOS".data
      (some "Refunds".data, none) [] [] none).1
      (of_decide_eq_true (by with_unfolding_all rfl)) rfl

/-!  Auxiliary lemmas for C9 (money round-trip).  -/

theorem digitVal_digChar (d : ℕ) (h : d < 10) : digitVal (digChar d) = d := by
  interval_cases d <;> decide

theorem reDig_digChar (d : ℕ) (h : d < 10) : reDig (digChar d) = true := by
  interval_cases d <;> decide

theorem valDigits_append_digit (l : List Char) (c : Char) :
    valDigits (l ++ [c]) = 10 * valDigits l + digitVal c := by
  unfold valDigits
  rw [List.foldl_append]
  rfl

theorem valDigits_digitsAux (n : ℕ) : valDigits (digitsAux n) = n := by
  induction n using Nat.strong_induction_on with
  | _ n ih =>
    rw [digitsAux]
    by_cases hn : n = 0
    · rw [dif_pos hn]
      simp [valDigits, hn]
    · rw [dif_neg hn]
      rw [valDigits_append_digit, ih (n / 10) (Nat.div_lt_self (Nat.pos_of_ne_zero hn) (by omega)),
        digitVal_digChar _ (Nat.mod_lt _ (by omega))]
      omega

theorem digitsAux_digits (n : ℕ) : ∀ c ∈ digitsAux n, reDig c = true := by
  induction n using Nat.strong_induction_on with
  | _ n ih =>
    rw [digitsAux]
    by_cases hn : n = 0
    · rw [dif_pos hn]; intro c hc; exact absurd hc (List.not_mem_nil c)
    · rw [dif_neg hn]
      intro c hc
      rcases List.mem_append.mp hc with h1 | h2
      · exact ih (n / 10) (Nat.div_lt_self (Nat.pos_of_ne_zero hn) (by omega)) c h1
      · rw [List.mem_singleton.mp h2]
        exact reDig_digChar _ (Nat.mod_lt _ (by omega))

theorem valDigits_natDigits (n : ℕ) : valDigits (natDigits n) = n := by
  unfold natDigits
  by_cases hn : n = 0
  · rw [if_pos hn, hn]; decide
  · rw [if_neg hn]; exact valDigits_digitsAux n

theorem natDigits_digits (n : ℕ) : ∀ c ∈ natDigits n, reDig c = true := by
  unfold natDigits
  by_cases hn : n = 0
  · rw [if_pos hn]; intro c hc; rw [List.mem_singleton.mp hc]; decide
  · rw [if_neg hn]; exact digitsAux_digits n

theorem natDigits_ne_nil (n : ℕ) : natDigits n ≠ [] := by
  unfold natDigits
  by_cases hn : n = 0
  · rw [if_pos hn]; exact List.cons_ne_nil _ _
  · rw [if_neg hn, digitsAux, dif_neg hn]
    simp

theorem twoDigits_digits (n : ℕ) (h : n < 100) : ∀ c ∈ twoDigits n, reDig c = true := by
  intro c hc
  unfold twoDigits at hc
  simp only [List.mem_cons, List.not_mem_nil, or_false] at hc
  rcases hc with rfl | rfl
  · exact reDig_digChar _ (by omega)
  · exact reDig_digChar _ (Nat.mod_lt _ (by omega))

theorem valDigits_twoDigits (n : ℕ) (h : n < 100) : valDigits (twoDigits n) = n := by
  unfold twoDigits valDigits
  simp only [List.foldl_cons, List.foldl_nil]
  rw [show (0 : ℕ) * 10 = 0 from rfl]
  have h1 : digitVal (digChar (n / 10)) = n / 10 := digitVal_digChar _ (by omega)
  have h2 : digitVal (digChar (n % 10)) = n % 10 := digitVal_digChar _ (Nat.mod_lt _ (by omega))
  omega

theorem reDig_char_facts (c : Char) (h : reDig c = true) :
    c ≠ ',' ∧ c ≠ '.' ∧ c ≠ '-' ∧ c ≠ 'X' := by
  refine ⟨fun hc => ?_, fun hc => ?_, fun hc => ?_, fun hc => ?_⟩ <;>
    (subst hc; exact absurd h (by decide))

theorem swapChain_fix (c : Char) (h1 : c ≠ ',') (h2 : c ≠ '.') (h3 : c ≠ 'X') :
    swapChain c = c := by
  simp [swapChain, h1, h2, h3]

theorem swapChain_fix_digit (c : Char) (h : reDig c = true) : swapChain c = c := by
  obtain ⟨h1, h2, _, h3⟩ := reDig_char_facts c h
  exact swapChain_fix c h1 h2 h3

theorem map_fix {f : Char → Char} : ∀ (l : List Char), (∀ c ∈ l, f c = c) → l.map f = l
  | [], _ => rfl
  | a :: l, h => by
    rw [List.map_cons, h a (List.mem_cons_self a l),
      map_fix l (fun c hc => h c (List.mem_cons_of_mem a hc))]

theorem filter_fix {p : Char → Bool} : ∀ (l : List Char), (∀ c ∈ l, p c = true) → l.filter p = l
  | [], _ => rfl
  | a :: l, h => by
    rw [List.filter_cons, if_pos (h a (List.mem_cons_self a l)),
      filter_fix l (fun c hc => h c (List.mem_cons_of_mem a hc))]

theorem format_brl_eq_map (q : ℚ) : format_brl q = (pyFormatComma2 q).map swapChain := by
  unfold format_brl swapChar
  rw [List.map_map, List.map_map]
  have hfun : ∀ c : Char,
      ((fun c => if c = 'X' then '.' else c) ∘ (fun c => if c = '.' then ',' else c) ∘
        (fun c => if c = ',' then 'X' else c)) c = swapChain c := by
    intro c
    by_cases h1 : c = ','
    · subst h1; decide
    by_cases h2 : c = '.'
    · subst h2; decide
    by_cases h3 : c = 'X'
    · subst h3; decide
    simp [Function.comp, swapChain, h1, h2, h3]
  calc (pyFormatComma2 q).map ((fun c => if c = 'X' then '.' else c) ∘
        (fun c => if c = '.' then ',' else c) ∘ (fun c => if c = ',' then 'X' else c))
      = (pyFormatComma2 q).map swapChain := by
        apply List.map_congr_left
        intro c _
        exact hfun c

theorem g3r_map_swap : ∀ (l : List Char), (∀ c ∈ l, swapChain c = c) →
    (g3r ',' l).map swapChain = g3r '.' l
  | [], _ => rfl
  | [a], h => by simp [g3r, h a (by simp)]
  | [a, b], h => by simp [g3r, h a (by simp), h b (by simp)]
  | [a, b, c], h => by simp [g3r, h a (by simp), h b (by simp), h c (by simp)]
  | a :: b :: c :: d :: rest, h => by
    have ih := g3r_map_swap (d :: rest)
      (fun x hx => h x (by simp only [List.mem_cons] at hx ⊢; tauto))
    simp only [g3r, List.map_cons]
    rw [ih, h a (by simp), h b (by simp), h c (by simp),
      show swapChain ',' = '.' from by decide]

theorem g3r_filter : ∀ (l : List Char), (∀ c ∈ l, (c == '.') = false) →
    (g3r '.' l).filter (fun c => !(c == '.')) = l
  | [], _ => rfl
  | [a], h => by simp [g3r, List.filter_cons, h a (by simp)]
  | [a, b], h => by simp [g3r, List.filter_cons, h a (by simp), h b (by simp)]
  | [a, b, c], h => by
    simp [g3r, List.filter_cons, h a (by simp), h b (by simp), h c (by simp)]
  | a :: b :: c :: d :: rest, h => by
    have ih := g3r_filter (d :: rest)
      (fun x hx => h x (by simp only [List.mem_cons] at hx ⊢; tauto))
    simp only [g3r, List.filter_cons, h a (by simp), h b (by simp), h c (by simp)]
    simp [ih]

theorem takeWhile_append_of_all (p : Char → Bool) (x : Char) (r : List Char) (hx : p x = false) :
    ∀ (D : List Char), (∀ c ∈ D, p c = true) → (D ++ x :: r).takeWhile p = D
  | [], _ => by simp [List.takeWhile_cons, hx]
  | a :: l, h => by
    simp only [List.cons_append, List.takeWhile_cons, h a (by simp)]
    rw [takeWhile_append_of_all p x r hx l (fun c hc => h c (by simp [hc]))]
    simp

theorem dropWhile_append_of_all (p : Char → Bool) (x : Char) (r : List Char) (hx : p x = false) :
    ∀ (D : List Char), (∀ c ∈ D, p c = true) → (D ++ x :: r).dropWhile p = x :: r
  | [], _ => by simp [List.dropWhile_cons, hx]
  | a :: l, h => by
    simp only [List.cons_append, List.dropWhile_cons, h a (by simp)]
    rw [dropWhile_append_of_all p x r hx l (fun c hc => h c (by simp [hc]))]
    simp

theorem pyFloat_neg_head (t : List Char) :
    pyFloat ('-' :: t) = (pyFloatUnsigned t).map Rat.neg := rfl

theorem pyFloat_cons_ne (c : Char) (t : List Char) (h : c ≠ '-') :
    pyFloat (c :: t) = pyFloatUnsigned (c :: t) := by
  unfold pyFloat
  split
  · rename_i t' heq
    exfalso
    injection heq with h1 _
    exact h h1
  · rfl

theorem format_brl_shape (n : ℤ) :
    format_brl ((n : ℚ) / 100) =
      (if n < 0 then ['-'] else []) ++
        (group3 '.' (natDigits (n.natAbs / 100)) ++ (',' :: twoDigits (n.natAbs % 100))) := by
  have hround : round (((n : ℚ) / 100) * 100) = n := by
    rw [div_mul_cancel₀ _ (by norm_num : (100 : ℚ) ≠ 0)]
    exact round_intCast n
  have hDdig := natDigits_digits (n.natAbs / 100)
  have hFdig := twoDigits_digits (n.natAbs % 100) (Nat.mod_lt _ (by omega))
  have hshape : pyFormatComma2 ((n : ℚ) / 100) =
      (if n < 0 then ['-'] else []) ++ group3 ',' (natDigits (n.natAbs / 100)) ++ ['.'] ++
        twoDigits (n.natAbs % 100) := by
    simp only [pyFormatComma2]
    rw [hround]
  have hswapD : (group3 ',' (natDigits (n.natAbs / 100))).map swapChain =
      group3 '.' (natDigits (n.natAbs / 100)) := by
    unfold group3
    rw [List.map_reverse, g3r_map_swap (natDigits (n.natAbs / 100)).reverse
      (fun c hc => swapChain_fix_digit c (hDdig c (List.mem_reverse.mp hc)))]
  rw [format_brl_eq_map, hshape]
  simp only [List.map_append, List.append_assoc, List.singleton_append, List.map_cons,
    List.map_nil, hswapD, map_fix (twoDigits (n.natAbs % 100))
      (fun c hc => swapChain_fix_digit c (hFdig c hc)),
    show swapChain '.' = ',' from by decide]
  rcases lt_or_le n 0 with hn | hn
  · simp [if_pos hn, show swapChain '-' = '-' from by decide]
  · simp [if_neg (not_lt.mpr hn)]

theorem pyFloatUnsigned_digits (D F : List Char)
    (hD : ∀ c ∈ D, reDig c = true) (hF : ∀ c ∈ F, reDig c = true) (hne : D ≠ []) :
    pyFloatUnsigned (D ++ '.' :: F) =
      some (mkRat (Int.ofNat (valDigits D * 10 ^ F.length + valDigits F)) (10 ^ F.length)) := by
  have hDp : ∀ c ∈ D, (fun c => !(c == '.')) c = true := by
    intro c hc
    have h2 := (reDig_char_facts c (hD c hc)).2.1
    simp [h2]
  have hdot : (fun c => !(c == '.')) '.' = false := by decide
  have hDall : D.all reDig = true := List.all_eq_true.mpr hD
  have hFall : F.all reDig = true := List.all_eq_true.mpr hF
  have hDne : D.isEmpty = false := by
    cases D with
    | nil => exact absurd rfl hne
    | cons a l => rfl
  simp only [pyFloatUnsigned]
  rw [takeWhile_append_of_all _ '.' F hdot D hDp, dropWhile_append_of_all _ '.' F hdot D hDp]
  show (if (D.all reDig && F.all reDig && (!D.isEmpty || !F.isEmpty)) = true then
      some (mkRat (Int.ofNat (valDigits D * 10 ^ F.length + valDigits F)) (10 ^ F.length))
    else none) =
    some (mkRat (Int.ofNat (valDigits D * 10 ^ F.length + valDigits F)) (10 ^ F.length))
  rw [if_pos (by simp [hDall, hFall, hDne])]

theorem parse_money_format_brl (n : ℤ) :
    parse_money_value (format_brl ((n : ℚ) / 100)) = some ((n : ℚ) / 100) := by
  have hDdig := natDigits_digits (n.natAbs / 100)
  have hFdig := twoDigits_digits (n.natAbs % 100) (Nat.mod_lt _ (by omega))
  have hfilterD : (group3 '.' (natDigits (n.natAbs / 100))).filter (fun c => !(c == '.')) =
      natDigits (n.natAbs / 100) := by
    unfold group3
    rw [List.filter_reverse, g3r_filter (natDigits (n.natAbs / 100)).reverse
      (fun c hc => by
        have h2 := (reDig_char_facts c (hDdig c (List.mem_reverse.mp hc))).2.1
        simp [h2]),
      List.reverse_reverse]
  have hfilterF : (twoDigits (n.natAbs % 100)).filter (fun c => !(c == '.')) =
      twoDigits (n.natAbs % 100) :=
    filter_fix _ (fun c hc => by
      have h2 := (reDig_char_facts c (hFdig c hc)).2.1
      simp [h2])
  have hmapD : (natDigits (n.natAbs / 100)).map (fun c => if c = ',' then '.' else c) =
      natDigits (n.natAbs / 100) :=
    map_fix _ (fun c hc => by
      have h1 := (reDig_char_facts c (hDdig c hc)).1
      simp [h1])
  have hmapF : (twoDigits (n.natAbs % 100)).map (fun c => if c = ',' then '.' else c) =
      twoDigits (n.natAbs % 100) :=
    map_fix _ (fun c hc => by
      have h1 := (reDig_char_facts c (hFdig c hc)).1
      simp [h1])
  have hvalD : valDigits (natDigits (n.natAbs / 100)) = n.natAbs / 100 :=
    valDigits_natDigits _
  have hvalF : valDigits (twoDigits (n.natAbs % 100)) = n.natAbs % 100 :=
    valDigits_twoDigits _ (Nat.mod_lt _ (by omega))
  have hlenF : (twoDigits (n.natAbs % 100)).length = 2 := rfl
  have hmk : mkRat (Int.ofNat (valDigits (natDigits (n.natAbs / 100)) *
      10 ^ (twoDigits (n.natAbs % 100)).length +
      valDigits (twoDigits (n.natAbs % 100)))) (10 ^ (twoDigits (n.natAbs % 100)).length) =
      ((n.natAbs : ℚ)) / 100 := by
    rw [hvalD, hvalF, hlenF]
    have harith : n.natAbs / 100 * 10 ^ 2 + n.natAbs % 100 = n.natAbs := by omega
    rw [harith, show (10 : ℕ) ^ 2 = 100 from rfl]
    rw [Rat.mkRat_eq_divInt, Rat.divInt_eq_div, Int.ofNat_eq_natCast]
    push_cast
    rw [Int.cast_natAbs, Int.cast_abs]
  unfold parse_money_value
  rcases lt_or_le n 0 with hn | hn
  · have hform : format_brl ((n : ℚ) / 100) =
        '-' :: (group3 '.' (natDigits (n.natAbs / 100)) ++ (',' :: twoDigits (n.natAbs % 100))) := by
      rw [format_brl_shape n, if_pos hn]
      rfl
    have hfilter : ('-' :: (group3 '.' (natDigits (n.natAbs / 100)) ++
        (',' :: twoDigits (n.natAbs % 100)))).filter (fun c => !(c == '.')) =
        '-' :: (natDigits (n.natAbs / 100) ++ (',' :: twoDigits (n.natAbs % 100))) := by
      simp [List.filter_append, List.filter_cons, hfilterD, hfilterF]
    have hmap2 : ('-' :: (natDigits (n.natAbs / 100) ++
        (',' :: twoDigits (n.natAbs % 100)))).map (fun c => if c == ',' then '.' else c) =
        '-' :: (natDigits (n.natAbs / 100) ++ ('.' :: twoDigits (n.natAbs % 100))) := by
      simp [List.map_append, hmapD, hmapF]
    rw [hform, hfilter, hmap2, pyFloat_neg_head,
      pyFloatUnsigned_digits _ _ hDdig hFdig (natDigits_ne_nil _), hmk]
    have hcast : ((n.natAbs : ℚ)) = -(n : ℚ) := by
      push_cast [Int.cast_natAbs]
      rw [abs_of_neg (by exact_mod_cast hn : (n : ℚ) < 0)]
    rw [Option.map_some', ratNeg_eq, hcast]
    have : -(-(n : ℚ) / 100) = (n : ℚ) / 100 := by ring
    rw [this]
  · have hform : format_brl ((n : ℚ) / 100) =
        group3 '.' (natDigits (n.natAbs / 100)) ++ (',' :: twoDigits (n.natAbs % 100)) := by
      rw [format_brl_shape n, if_neg (not_lt.mpr hn)]
      rfl
    have hfilter : (group3 '.' (natDigits (n.natAbs / 100)) ++
        (',' :: twoDigits (n.natAbs % 100))).filter (fun c => !(c == '.')) =
        natDigits (n.natAbs / 100) ++ (',' :: twoDigits (n.natAbs % 100)) := by
      simp [List.filter_append, List.filter_cons, hfilterD, hfilterF]
    have hmap2 : (natDigits (n.natAbs / 100) ++
        (',' :: twoDigits (n.natAbs % 100))).map (fun c => if c == ',' then '.' else c) =
        natDigits (n.natAbs / 100) ++ ('.' :: twoDigits (n.natAbs % 100)) := by
      simp [List.map_append, hmapD, hmapF]
    rw [hform, hfilter, hmap2]
    obtain ⟨c, D', hDc⟩ : ∃ c D', natDigits (n.natAbs / 100) = c :: D' := by
      cases hD0 : natDigits (n.natAbs / 100) with
      | nil => exact absurd hD0 (natDigits_ne_nil _)
      | cons a l => exact ⟨a, l, rfl⟩
    have hcdig : reDig c = true := hDdig c (by rw [hDc]; exact List.mem_cons_self c D')
    have hcne : c ≠ '-' := (reDig_char_facts c hcdig).2.2.1
    rw [hDc, List.cons_append, pyFloat_cons_ne c _ hcne, ← List.cons_append, ← hDc,
      pyFloatUnsigned_digits _ _ hDdig hFdig (natDigits_ne_nil _), hmk]
    have hcast : ((n.natAbs : ℚ)) = (n : ℚ) := by
      push_cast [Int.cast_natAbs]
      rw [abs_of_nonneg (by exact_mod_cast hn : (0 : ℚ) ≤ (n : ℚ))]
    rw [hcast]

/-- C9: the money codec round-trips on every amount with exactly two decimal
digits: decoding the `format_brl` rendering of `n/100` recovers `n/100`
exactly, hence within the claimed `1e-9` tolerance. -/
theorem C9_money_roundtrip (n : ℤ) :
    ∃ q : ℚ, parse_money_value (format_brl ((n : ℚ) / 100)) = some q ∧
      |q - (n : ℚ) / 100| < 1 / 1000000000 :=
  ⟨(n : ℚ) / 100, parse_money_format_brl n, by rw [sub_self, abs_zero]; norm_num⟩

end BudgetTracker
